import Mathlib

/-!
Shallow embedding of the `ccut` core (src/line.rs, src/parse_args.rs, src/main.rs).

Modelling conventions:
* A Rust `&str` / `String` is a `List Char` of Unicode scalar values.
* Rust slices strings by **byte** offsets and panics when an offset is not a
  char boundary (or out of range); we model a slice as an `Option`, `none`
  being a panic.  `csize c` is the UTF-8 byte width of `c`.
* `usize` values are modelled as `Nat` together with the 64-bit bound
  `usizeMax = 2^64 - 1` wherever the bound matters: `str::parse::<usize>()`
  rejects values above `usize::MAX` (`PosOverflow`), and the arithmetic in the
  spec parser (`i - offset`, `b + offset`) is the checked debug-build
  operation, which panics on underflow/overflow — the repo's own
  `#[should_panic]` tests pin the debug semantics.
* Rust panics (`assert!`, `expect`, arithmetic overflow) are `Except.error`
  carrying the panic message.
-/

namespace Ccut

/-- UTF-8 byte width of a Unicode scalar value (Rust `char::len_utf8`). -/
def csize (c : Char) : Nat :=
  if c.toNat < 0x80 then 1
  else if c.toNat < 0x800 then 2
  else if c.toNat < 0x10000 then 3
  else 4

/-- Drop the prefix of `s` occupying exactly `n` bytes; `none` when `n` is not
a char boundary of `s` (a Rust slice at such an offset panics). -/
def dropBytes : List Char → Nat → Option (List Char)
  | s, 0 => some s
  | [], _ + 1 => none
  | c :: cs, n + 1 =>
    if csize c ≤ n + 1 then dropBytes cs (n + 1 - csize c) else none

/-- Take the prefix of `s` occupying exactly `n` bytes; `none` when `n` is not
a char boundary of `s`. -/
def takeBytes : List Char → Nat → Option (List Char)
  | _, 0 => some []
  | [], _ + 1 => none
  | c :: cs, n + 1 =>
    if csize c ≤ n + 1 then (takeBytes cs (n + 1 - csize c)).map (c :: ·) else none

/-- Rust `&s[a..b]`: the bytes from offset `a` (inclusive) to `b` (exclusive);
`none` models the panic when `a > b` or an offset misses a char boundary. -/
def byteSlice (s : List Char) (a b : Nat) : Option (List Char) :=
  if a ≤ b then (dropBytes s a).bind fun t => takeBytes t (b - a) else none

/-- Rust `char::is_whitespace` (the Unicode `White_Space` set). -/
def isWS (c : Char) : Bool :=
  decide ((0x09 ≤ c.toNat ∧ c.toNat ≤ 0x0D) ∨ c.toNat = 0x20 ∨ c.toNat = 0x85 ∨
    c.toNat = 0xA0 ∨ c.toNat = 0x1680 ∨ (0x2000 ≤ c.toNat ∧ c.toNat ≤ 0x200A) ∨
    c.toNat = 0x2028 ∨ c.toNat = 0x2029 ∨ c.toNat = 0x202F ∨ c.toNat = 0x205F ∨
    c.toNat = 0x3000)

/-- Rust `str::trim`: strip leading and trailing whitespace. -/
def trim (l : List Char) : List Char :=
  ((l.dropWhile isWS).reverse.dropWhile isWS).reverse

/-- The quote state of `split_line` (src/line.rs, `enum QuoteState`). -/
inductive QuoteState
  | Normal
  | SingleQuote
  | DoubleQuote
  | SingleEscape
  | DoubleEscape
deriving DecidableEq

/-- The mutable scan state of the `split_line` loop: quote state, the
`field_start` byte cursor, and the fields pushed so far. -/
structure ScanSt where
  state : QuoteState
  fieldStart : Nat
  fields : List (List Char)
deriving DecidableEq

/-- One iteration of the `split_line` loop (src/line.rs lines 34-51) on the
character `c` at char index `i`.  The match arms are the source's, in order;
the push `line[field_start..i]` uses the char index `i` as a byte offset,
exactly as the source does, and `none` models its panic. -/
def splitStep (t : List Char) (st : ScanSt) (i : Nat) (c : Char) : Option ScanSt :=
  match st.state with
  | .Normal =>
    if c = ',' then
      (byteSlice t st.fieldStart i).map fun f =>
        { state := .Normal, fieldStart := i + 1, fields := st.fields ++ [f] }
    else if c = '\'' then some { st with state := .SingleQuote }
    else if c = '"' then some { st with state := .DoubleQuote }
    else some st
  | .SingleQuote =>
    if c = '\'' then some { st with state := .Normal }
    else if c = '\\' then some { st with state := .SingleEscape }
    else some st
  | .DoubleQuote =>
    if c = '"' then some { st with state := .Normal }
    else if c = '\\' then some { st with state := .DoubleEscape }
    else some st
  | .SingleEscape => some { st with state := .SingleQuote }
  | .DoubleEscape => some { st with state := .DoubleQuote }

/-- The `for (i, c) in line.chars().enumerate()` loop of `split_line`, over the
remaining characters `cs`, with `i` the char index of the head of `cs`. -/
def splitLoop (t : List Char) : List Char → Nat → ScanSt → Option ScanSt
  | [], _, st => some st
  | c :: cs, i, st => (splitStep t st i c).bind (splitLoop t cs (i + 1))

/-- Total byte length of a string. -/
def blen (s : List Char) : Nat := (s.map csize).sum

/-- `split_line` (src/line.rs lines 25-54): trim, scan, and push the final
field `&line[field_start..]` unconditionally.  `none` models a panic. -/
def splitLine (l : List Char) : Option (List (List Char)) :=
  let t := trim l
  (splitLoop t t 0 ⟨.Normal, 0, []⟩).bind fun st =>
    (dropBytes t st.fieldStart).map fun last => st.fields ++ [last]

/-- The pure quote-state transition table of `split_line`, used to state
invariants of the scan. -/
def qstep (s : QuoteState) (c : Char) : QuoteState :=
  match s with
  | .Normal =>
    if c = ',' then .Normal
    else if c = '\'' then .SingleQuote
    else if c = '"' then .DoubleQuote
    else .Normal
  | .SingleQuote =>
    if c = '\'' then .Normal
    else if c = '\\' then .SingleEscape
    else .SingleQuote
  | .DoubleQuote =>
    if c = '"' then .Normal
    else if c = '\\' then .DoubleEscape
    else .DoubleQuote
  | .SingleEscape => .SingleQuote
  | .DoubleEscape => .DoubleQuote

/-- Number of commas of `cs` consumed while the scan state is `Normal`,
starting from state `s`. -/
def normalCommas : QuoteState → List Char → Nat
  | _, [] => 0
  | s, c :: cs =>
    (if s = .Normal ∧ c = ',' then 1 else 0) + normalCommas (qstep s c) cs

/-- `Vec::join(",")`: the fields rejoined with a single comma. -/
def joinComma (fs : List (List Char)) : List Char := List.intercalate [','] fs

/-- The selection loop of `cut_line` (src/line.rs lines 15-20): for each
requested index in caller order, the field at that index, or `""` when the
index is out of range. -/
def selectCols (fields : List (List Char)) (cols : List Nat) : List (List Char) :=
  cols.map fun i => if fields.length ≤ i then [] else fields.getD i []

/-- `cut_line` (src/line.rs lines 4-22): tokenize, select, join with `,`.
`none` models a panic propagated from `split_line`. -/
def cut_line (line : List Char) (cols : List Nat) : Option (List Char) :=
  (splitLine line).map fun fields => joinComma (selectCols fields cols)

/-- Rust `str::split(sep)` for a one-character separator: the (possibly empty)
pieces between occurrences of `sep`; the empty string splits to `[""]`. -/
def splitOnChar (sep : Char) : List Char → List (List Char)
  | [] => [[]]
  | c :: cs =>
    if c = sep then [] :: splitOnChar sep cs
    else
      match splitOnChar sep cs with
      | [] => [[c]]
      | f :: rest => (c :: f) :: rest

/-- `usize::MAX` on the 64-bit targets the repository is built for. -/
def usizeMax : Nat := 2 ^ 64 - 1

/-- Decimal digit value of a character, `none` for a non-digit. -/
def digitVal (c : Char) : Option Nat :=
  if '0' ≤ c ∧ c ≤ '9' then some (c.toNat - '0'.toNat) else none

/-- Accumulate decimal digits the way `from_str_radix` does: each step is the
checked `acc * 10 + d`, so a value exceeding `usize::MAX` is rejected
(`PosOverflow`); `none` on any non-digit. -/
def parseDigits : List Char → Nat → Option Nat
  | [], acc => some acc
  | c :: cs, acc =>
    match digitVal c with
    | some d =>
      if acc * 10 + d ≤ usizeMax then parseDigits cs (acc * 10 + d) else none
    | none => none

/-- Rust `str::parse::<usize>()`: an optional leading `+`, then one or more
decimal digits, rejecting values above `usize::MAX`. -/
def parseUsize (s : List Char) : Option Nat :=
  match s with
  | [] => none
  | c :: rest =>
    if c = '+' then if rest.isEmpty then none else parseDigits rest 0
    else parseDigits (c :: rest) 0

/-- Debug-build `usize` subtraction: Rust panics on underflow (the repo's
`#[should_panic]` tests `test_offset_fails` rely on this). -/
def checkedSub (a b : Nat) : Except String Nat :=
  if b ≤ a then .ok (a - b) else .error "attempt to subtract with overflow"

/-- The push loop `for i in a..b + offset { res.push(i - offset) }` of the
range branch (src/parse_args.rs lines 27-29).  Constructing the range
`a..b + offset` performs the addition `b + offset`, a checked `usize` add in
a debug build, so it panics when `b = usize::MAX` and `offset = 1`.  The
pushes `i - offset` never underflow because `offset ≤ a ≤ i` has been
asserted before the loop, so plain `Nat` subtraction is faithful there. -/
def pushRange (a b offset : Nat) : Except String (List Nat) :=
  if b + offset ≤ usizeMax then
    .ok ((List.range' a (b + offset - a)).map (fun i => i - offset))
  else .error "attempt to add with overflow"

/-- One element of the column spec (the body of the `for elem in
cols.split(',')` loop of `parse_arg_cols`, src/parse_args.rs lines 10-37):
trim, then either a range `a-b` or a single index.  Panics (`assert!`,
`expect`, overflow/underflow) are `Except.error` with the panic message. -/
def parseElem (offset : Nat) (elemRaw : List Char) : Except String (List Nat) :=
  let elem := trim elemRaw
  if elem.contains '-' then
    let rg := splitOnChar '-' elem
    if rg.length = 2 then
      match parseUsize (rg.getD 0 []) with
      | none => .error "Invalid range: start index is not an integer"
      | some a =>
        match parseUsize (rg.getD 1 []) with
        | none => .error "Invalid range: end index is not an integer"
        | some b =>
          if offset ≤ a then
            if offset = 0 then
              if a < b then pushRange a b offset
              else
                .error ("Overlapping end-points [" ++ Nat.repr a ++ ", " ++
                  Nat.repr b ++ ")")
            else
              if a ≤ b then pushRange a b offset
              else
                .error ("Overlapping end-points [" ++ Nat.repr a ++ ", " ++
                  Nat.repr b ++ "]")
          else .error ("Start index must be at least " ++ Nat.repr offset)
    else
      .error ("Invalid range " ++ String.mk elem ++ " (" ++ Nat.repr rg.length ++
        " parts)")
  else
    match parseUsize elem with
    | none => .error "Invalid index"
    | some i => (checkedSub i offset).map (fun x => [x])

/-- The `for elem in cols.split(',')` accumulation of `parse_arg_cols`: the
per-element results concatenated in order, aborting at the first panic. -/
def parseLoop (offset : Nat) : List (List Char) → Except String (List Nat)
  | [] => .ok []
  | e :: es => do
    let xs ← parseElem offset e
    let rest ← parseLoop offset es
    .ok (xs ++ rest)

/-- `parse_arg_cols` (src/parse_args.rs lines 5-39): assert the offset is 0 or
1, then fold the per-element parser over the comma-separated spec. -/
def parse_arg_cols (cols : List Char) (offset : Nat) : Except String (List Nat) :=
  if offset = 0 ∨ offset = 1 then parseLoop offset (splitOnChar ',' cols)
  else .error ("Invalid offset, " ++ Nat.repr offset)

/-- Whether a result is a panic/error. -/
def isErr : Except String (List Nat) → Bool
  | .error _ => true
  | .ok _ => false

/-! The legacy copies in src/main.rs.  `main.rs` re-declares the whole state
machine inside `_split_line` (lines 47-76) and the whole spec parser as
`parse_cols` (lines 11-45); each is translated below from its own source
text, reusing only the standard-library models (`trim`, `splitOnChar`,
`parseUsize`, `byteSlice`, ...), which stand for the same `std` functions in
both files. -/

/-- One iteration of the `_split_line` loop (src/main.rs lines 55-74). -/
def mainSplitStep (t : List Char) (st : ScanSt) (i : Nat) (c : Char) :
    Option ScanSt :=
  match st.state with
  | .Normal =>
    if c = ',' then
      (byteSlice t st.fieldStart i).map fun f =>
        { state := .Normal, fieldStart := i + 1, fields := st.fields ++ [f] }
    else if c = '\'' then some { st with state := .SingleQuote }
    else if c = '"' then some { st with state := .DoubleQuote }
    else some st
  | .SingleQuote =>
    if c = '\'' then some { st with state := .Normal }
    else if c = '\\' then some { st with state := .SingleEscape }
    else some st
  | .DoubleQuote =>
    if c = '"' then some { st with state := .Normal }
    else if c = '\\' then some { st with state := .DoubleEscape }
    else some st
  | .SingleEscape => some { st with state := .SingleQuote }
  | .DoubleEscape => some { st with state := .DoubleQuote }

/-- The enumerated-characters loop of `_split_line` (src/main.rs). -/
def mainSplitLoop (t : List Char) : List Char → Nat → ScanSt → Option ScanSt
  | [], _, st => some st
  | c :: cs, i, st => (mainSplitStep t st i c).bind (mainSplitLoop t cs (i + 1))

/-- `_split_line` (src/main.rs lines 47-76). -/
def _split_line (l : List Char) : Option (List (List Char)) :=
  let t := trim l
  (mainSplitLoop t t 0 ⟨.Normal, 0, []⟩).bind fun st =>
    (dropBytes t st.fieldStart).map fun last => st.fields ++ [last]

/-- The push loop of the range branch of `parse_cols` (src/main.rs lines
34-36), with the same checked `b + offset` addition. -/
def mainPushRange (a b offset : Nat) : Except String (List Nat) :=
  if b + offset ≤ usizeMax then
    .ok ((List.range' a (b + offset - a)).map (fun i => i - offset))
  else .error "attempt to add with overflow"

/-- One element of the column spec in `parse_cols` (src/main.rs lines 16-43). -/
def mainParseElem (offset : Nat) (elemRaw : List Char) : Except String (List Nat) :=
  let elem := trim elemRaw
  if elem.contains '-' then
    let rg := splitOnChar '-' elem
    if rg.length = 2 then
      match parseUsize (rg.getD 0 []) with
      | none => .error "Invalid range: start index is not an integer"
      | some a =>
        match parseUsize (rg.getD 1 []) with
        | none => .error "Invalid range: end index is not an integer"
        | some b =>
          if offset ≤ a then
            if offset = 0 then
              if a < b then mainPushRange a b offset
              else
                .error ("Overlapping end-points [" ++ Nat.repr a ++ ", " ++
                  Nat.repr b ++ ")")
            else
              if a ≤ b then mainPushRange a b offset
              else
                .error ("Overlapping end-points [" ++ Nat.repr a ++ ", " ++
                  Nat.repr b ++ "]")
          else .error ("Start index must be at least " ++ Nat.repr offset)
    else
      .error ("Invalid range " ++ String.mk elem ++ " (" ++ Nat.repr rg.length ++
        " parts)")
  else
    match parseUsize elem with
    | none => .error "Invalid index"
    | some i => (checkedSub i offset).map (fun x => [x])

/-- The element accumulation of `parse_cols` (src/main.rs). -/
def mainParseLoop (offset : Nat) : List (List Char) → Except String (List Nat)
  | [] => .ok []
  | e :: es => do
    let xs ← mainParseElem offset e
    let rest ← mainParseLoop offset es
    .ok (xs ++ rest)

/-- `parse_cols` (src/main.rs lines 11-45). -/
def parse_cols (cols : List Char) (offset : Nat) : Except String (List Nat) :=
  if offset = 0 ∨ offset = 1 then mainParseLoop offset (splitOnChar ',' cols)
  else .error ("Invalid offset, " ++ Nat.repr offset)

end Ccut

deriving instance DecidableEq for Except

namespace Ccut

/-! Helper lemmas. -/

lemma splitStep_spec (t : List Char) (st : ScanSt) (i : Nat) (c : Char) (st2 : ScanSt)
    (h : splitStep t st i c = some st2) :
    st2.state = qstep st.state c ∧
    st2.fields.length = st.fields.length +
      (if st.state = .Normal ∧ c = ',' then 1 else 0) := by
  obtain ⟨s, fs, flds⟩ := st
  cases s <;> simp only [splitStep, qstep] at h ⊢ <;>
    split_ifs at h ⊢ <;>
    simp_all [Option.map_eq_some'] <;>
    (try obtain ⟨f, hf, rfl⟩ := h) <;> simp_all

lemma splitLoop_len (t : List Char) :
    ∀ cs i st st2, splitLoop t cs i st = some st2 →
      st2.fields.length = st.fields.length + normalCommas st.state cs := by
  intro cs
  induction cs with
  | nil =>
    intro i st st2 h
    simp only [splitLoop, Option.some.injEq] at h
    subst h
    simp [normalCommas]
  | cons c cs ih =>
    intro i st st2 h
    simp only [splitLoop, Option.bind_eq_some] at h
    obtain ⟨st1, h1, h2⟩ := h
    obtain ⟨hstate, hlen⟩ := splitStep_spec t st i c st1 h1
    have hrec := ih (i + 1) st1 st2 h2
    rw [hstate] at hrec
    simp only [normalCommas]
    omega

lemma parseDigits_le :
    ∀ (l : List Char) (acc v : Nat), acc ≤ usizeMax →
      parseDigits l acc = some v → v ≤ usizeMax := by
  intro l
  induction l with
  | nil =>
    intro acc v hacc h
    simp only [parseDigits, Option.some.injEq] at h
    omega
  | cons c cs ih =>
    intro acc v hacc h
    simp only [parseDigits] at h
    cases hd : digitVal c with
    | none => rw [hd] at h; exact absurd h (by simp)
    | some d =>
      simp only [hd] at h
      by_cases hle : acc * 10 + d ≤ usizeMax
      · rw [if_pos hle] at h
        exact ih (acc * 10 + d) v hle h
      · rw [if_neg hle] at h
        exact absurd h (by simp)

lemma parseUsize_le (s : List Char) (v : Nat) (h : parseUsize s = some v) :
    v ≤ usizeMax := by
  cases s with
  | nil => simp [parseUsize] at h
  | cons c rest =>
    simp only [parseUsize] at h
    by_cases hc : c = '+'
    · rw [if_pos hc] at h
      by_cases hr : rest.isEmpty
      · rw [if_pos hr] at h; exact absurd h (by simp)
      · rw [if_neg hr] at h; exact parseDigits_le rest 0 v (Nat.zero_le _) h
    · rw [if_neg hc] at h
      exact parseDigits_le (c :: rest) 0 v (Nat.zero_le _) h

lemma range'_map_sub_one (n : Nat) :
    ∀ a, 1 ≤ a → (List.range' a n).map (fun i => i - 1) = List.range' (a - 1) n := by
  induction n with
  | zero => intro a _; simp
  | succ n ih =>
    intro a ha
    rw [List.range'_succ, List.range'_succ, List.map_cons, ih (a + 1) (by omega),
      show a + 1 - 1 = a by omega, show a - 1 + 1 = a by omega]

lemma mainSplitStep_eq : mainSplitStep = splitStep := rfl

lemma mainSplitLoop_eq (t : List Char) :
    ∀ cs i st, mainSplitLoop t cs i st = splitLoop t cs i st := by
  intro cs
  induction cs with
  | nil => intro i st; rfl
  | cons c cs ih =>
    intro i st
    simp [mainSplitLoop, splitLoop, mainSplitStep_eq, ih]

lemma mainParseElem_eq : mainParseElem = parseElem := rfl

lemma mainParseLoop_eq (offset : Nat) :
    ∀ es, mainParseLoop offset es = parseLoop offset es := by
  intro es
  induction es with
  | nil => rfl
  | cons e es ih => simp [mainParseLoop, parseLoop, mainParseElem_eq, ih]

/-! The claims. -/

/-- Claim C1: the round-trip invariant fails on the code.  The quote-free
line `"éa,z"` tokenizes (without panicking) to `["é", ",z"]`, because
`split_line` uses the char index of `chars().enumerate()` as a byte offset
when slicing; the fields rejoined with `,` give `"é,,z"`, not the trimmed
line `"éa,z"`. -/
theorem splitLine_roundtrip_counterexample :
    splitLine ("éa,z".toList) = some ["é".toList, ",z".toList] ∧
    joinComma ["é".toList, ",z".toList] ≠ trim ("éa,z".toList) ∧
    ("éa,z".toList).contains '\'' = false ∧ ("éa,z".toList).contains '"' = false := by
  decide

/-- Claim C2: totality over Unicode scalar values fails on the code.  On the
line `"é,a"` the comma has char index 1 but byte offset 2, so
`&line[0..1]` slices inside the two-byte `é` and `split_line` panics
(modelled as `none`). -/
theorem splitLine_panics_on_multibyte :
    splitLine ("é,a".toList) = none := by
  decide

/-- Claim C3: the index-spec parser fails on each of the malformed specs
`"0-1-2"`/offset 0, `"2-2"`/offset 0, `"2-1"`/offset 1, and `"a-b"`/offset 0,
each time with a descriptive message naming the offending token and reason
(the `assert!`/`expect` panic message). -/
theorem parse_arg_cols_rejects_malformed_specs :
    parse_arg_cols ("0-1-2".toList) 0 = .error "Invalid range 0-1-2 (3 parts)" ∧
    parse_arg_cols ("2-2".toList) 0 = .error "Overlapping end-points [2, 2)" ∧
    parse_arg_cols ("2-1".toList) 1 = .error "Overlapping end-points [2, 1]" ∧
    parse_arg_cols ("a-b".toList) 0 =
      .error "Invalid range: start index is not an integer" := by
  decide

/-- Claim C4: on the single-index (no `-`) path with offset 1, an element
whose parsed value is below the offset fails fast with the debug-build
underflow panic instead of wrapping; in particular `parse("0", 1)` fails. -/
theorem parse_arg_cols_single_index_underflow_fails (e : List Char) (v : Nat)
    (h0 : (trim e).contains '-' = false)
    (h1 : parseUsize (trim e) = some v) (h2 : v < 1) :
    parseElem 1 e = .error "attempt to subtract with overflow" ∧
    parse_arg_cols ("0".toList) 1 = .error "attempt to subtract with overflow" := by
  refine ⟨?_, by decide⟩
  simp only [parseElem, h0, h1]
  simp [checkedSub, show ¬ (1 ≤ v) by omega, Except.map]

theorem parse_arg_cols_single_index_underflow_fails_witness :
    parseElem 1 ("0".toList) = .error "attempt to subtract with overflow" :=
  (parse_arg_cols_single_index_underflow_fails ("0".toList) 0 (by decide) (by decide)
    (by decide)).1

/-- Claim C5, counterexample to the original statement: the range element
`"1-18446744073709551615"` with offset 1 is well-formed (both tokens parse as
`usize`, `a = 1 ≥ offset`, `a ≤ b = usize::MAX`), yet the parser does not
emit the closed range `[a, b]` shifted down by 1: constructing `a..b + offset`
overflows `usize`, a debug-build panic. -/
theorem parse_arg_cols_range_expansion_counterexample :
    parseUsize ("1".toList) = some 1 ∧
    parseUsize ("18446744073709551615".toList) = some usizeMax ∧
    (1 : Nat) ≤ 1 ∧ (1 : Nat) ≤ usizeMax ∧
    parse_arg_cols ("1-18446744073709551615".toList) 1 =
      .error "attempt to add with overflow" ∧
    parse_arg_cols ("1-18446744073709551615".toList) 1 ≠
      .ok (List.range' (1 - 1) (usizeMax + 1 - 1)) := by
  have h : parse_arg_cols ("1-18446744073709551615".toList) 1 =
      .error "attempt to add with overflow" := by decide
  refine ⟨by decide, by decide, by decide, by decide, h, ?_⟩
  rw [h]
  exact fun hc => Except.noConfusion hc

/-- Claim C5 (amended): for a well-formed range element whose trimmed text
splits on `-` into two integer tokens `a` and `b` with `a ≥ offset`: with
offset 0 the parser requires `a < b` and emits the half-open range `[a, b)`
unchanged; with offset 1 it requires `a ≤ b` and, provided `b < usize::MAX`
(so that constructing `a..b + offset` does not overflow), emits the closed
range `[a, b]` shifted down by 1 — at `b = usize::MAX` the debug build panics
on the `b + offset` overflow instead; concretely `parse("1-3", 1) = [0,1,2]`
and `parse("1-3", 0) = [1,2]`. -/
theorem parse_arg_cols_range_expansion (e sa sb : List Char) (a b offset : Nat)
    (h0 : (trim e).contains '-' = true)
    (h1 : splitOnChar '-' (trim e) = [sa, sb])
    (h2 : parseUsize sa = some a) (h3 : parseUsize sb = some b)
    (h4 : offset ≤ a) :
    (offset = 0 → a < b → parseElem 0 e = .ok (List.range' a (b - a))) ∧
    (offset = 0 → ¬ a < b → isErr (parseElem 0 e) = true) ∧
    (offset = 1 → a ≤ b → b < usizeMax →
      parseElem 1 e = .ok (List.range' (a - 1) (b + 1 - a))) ∧
    (offset = 1 → a ≤ b → b = usizeMax →
      parseElem 1 e = .error "attempt to add with overflow") ∧
    (offset = 1 → ¬ a ≤ b → isErr (parseElem 1 e) = true) ∧
    parse_arg_cols ("1-3".toList) 1 = .ok [0, 1, 2] ∧
    parse_arg_cols ("1-3".toList) 0 = .ok [1, 2] := by
  have hb : b ≤ usizeMax := parseUsize_le sb b h3
  refine ⟨?_, ?_, ?_, ?_, ?_, by decide, by decide⟩
  · intro hoff hab
    subst hoff
    simp only [parseElem, h0, h1]
    simp only [List.getD_cons_zero, List.getD_cons_succ]
    rw [h2, h3]
    simp [hab, pushRange, hb]
  · intro hoff hab
    subst hoff
    simp only [parseElem, h0, h1]
    simp only [List.getD_cons_zero, List.getD_cons_succ]
    rw [h2, h3]
    simp [hab, isErr]
  · intro hoff hab hlt
    subst hoff
    simp only [parseElem, h0, h1]
    simp only [List.getD_cons_zero, List.getD_cons_succ]
    rw [h2, h3]
    simp [hab, h4, pushRange, show b + 1 ≤ usizeMax by omega,
      range'_map_sub_one (b + 1 - a) a h4]
  · intro hoff hab hmax
    subst hoff
    subst hmax
    simp only [parseElem, h0, h1]
    simp only [List.getD_cons_zero, List.getD_cons_succ]
    rw [h2, h3]
    simp [hab, h4, pushRange, show ¬ (usizeMax + 1 ≤ usizeMax) by decide]
  · intro hoff hab
    subst hoff
    simp only [parseElem, h0, h1]
    simp only [List.getD_cons_zero, List.getD_cons_succ]
    rw [h2, h3]
    simp [hab, h4, isErr]

theorem parse_arg_cols_range_expansion_witness :
    parseElem 1 ("1-3".toList) = .ok (List.range' (1 - 1) (3 + 1 - 1)) :=
  ((parse_arg_cols_range_expansion ("1-3".toList) ("1".toList) ("3".toList) 1 3 1
    (by decide) (by decide) (by decide) (by decide) (by decide)).2.2.1) rfl (by decide)
    (by decide)

/-- Claim C6: the selection step of `cut_line` is total: it returns one
entry per requested index in caller order (duplicates preserved), each entry
being the field at that index when in range and the empty string otherwise,
and the entries are joined with `,`; e.g. `cut_line("a,b,c", [0..6]) =
"a,b,c,,,,"`. -/
theorem selectCols_total_selection (fields : List (List Char)) (cols : List Nat)
    (k : Nat) (hk : k < cols.length) :
    (selectCols fields cols).length = cols.length ∧
    (selectCols fields cols).getD k [] =
      (if cols.getD k 0 < fields.length then fields.getD (cols.getD k 0) [] else []) ∧
    cut_line ("a,b,c".toList) [0, 1, 2, 3, 4, 5, 6] = some ("a,b,c,,,,".toList) := by
  refine ⟨by simp [selectCols], ?_, by decide⟩
  have h1 : (selectCols fields cols).getD k [] =
      (if fields.length ≤ cols.getD k 0 then [] else fields.getD (cols.getD k 0) []) := by
    simp only [selectCols, List.getD_eq_getElem?_getD, List.getElem?_map,
      List.getElem?_eq_getElem hk]
    simp
  rw [h1]
  by_cases hlt : cols.getD k 0 < fields.length
  · rw [if_pos hlt, if_neg (by omega)]
  · rw [if_neg hlt, if_pos (by omega)]

theorem selectCols_total_selection_witness :
    (selectCols ["a".toList, "b".toList] [1, 1, 5]).length =
      ([1, 1, 5] : List Nat).length ∧
    (selectCols ["a".toList, "b".toList] [1, 1, 5]).getD 2 [] =
      (if ([1, 1, 5] : List Nat).getD 2 0 < (["a".toList, "b".toList] : List (List Char)).length
        then (["a".toList, "b".toList] : List (List Char)).getD
          (([1, 1, 5] : List Nat).getD 2 0) [] else []) ∧
    cut_line ("a,b,c".toList) [0, 1, 2, 3, 4, 5, 6] = some ("a,b,c,,,,".toList) :=
  selectCols_total_selection ["a".toList, "b".toList] [1, 1, 5] 2 (by decide)

/-- Claim C7: a comma scanned while the quote state is not `Normal` never
terminates a field (the step leaves the pushed fields unchanged), and
commas inside a balanced quoted region do not split:
`tokenize("a,'b,b',c") = ["a", "'b,b'", "c"]`. -/
theorem splitLine_quoted_comma_never_splits (t : List Char) (st : ScanSt) (i : Nat)
    (h : st.state ≠ .Normal) :
    (splitStep t st i ',').map (·.fields) = some st.fields ∧
    splitLine ("a,'b,b',c".toList) =
      some ["a".toList, "'b,b'".toList, "c".toList] := by
  refine ⟨?_, by decide⟩
  obtain ⟨s, fs, flds⟩ := st
  cases s
  case Normal => exact absurd rfl h
  case SingleQuote => rfl
  case DoubleQuote => rfl
  case SingleEscape => rfl
  case DoubleEscape => rfl

theorem splitLine_quoted_comma_never_splits_witness :
    (splitStep [] ⟨.SingleQuote, 0, []⟩ 0 ',').map (·.fields) =
      some (⟨QuoteState.SingleQuote, 0, []⟩ : ScanSt).fields ∧
    splitLine ("a,'b,b',c".toList) =
      some ["a".toList, "'b,b'".toList, "c".toList] :=
  splitLine_quoted_comma_never_splits [] ⟨.SingleQuote, 0, []⟩ 0 (by decide)

/-- Claim C8: a backslash inside a quoted region suppresses the following
character as a quote terminator: from `DoubleQuote`, consuming `\` then `"`
lands back in `DoubleQuote` (not `Normal`), and symmetrically from
`SingleQuote` with `\` then `'`. -/
theorem splitStep_backslash_escape_suppresses_quote (t : List Char) (st : ScanSt)
    (i j : Nat) :
    (st.state = .DoubleQuote →
      ((splitStep t st i '\\').bind fun st2 => splitStep t st2 j '"').map (·.state) =
        some .DoubleQuote) ∧
    (st.state = .SingleQuote →
      ((splitStep t st i '\\').bind fun st2 => splitStep t st2 j '\'').map (·.state) =
        some .SingleQuote) := by
  obtain ⟨s, fs, flds⟩ := st
  constructor <;> intro h <;> simp only at h <;> subst h <;> rfl

theorem splitStep_backslash_escape_suppresses_quote_witness :
    ((splitStep [] ⟨.DoubleQuote, 0, []⟩ 0 '\\').bind
      fun st2 => splitStep [] st2 1 '"').map (·.state) = some QuoteState.DoubleQuote :=
  (splitStep_backslash_escape_suppresses_quote [] ⟨.DoubleQuote, 0, []⟩ 0 1).1 rfl

/-- Claim C9: whenever the tokenizer returns a field sequence, the final
field from `field_start` to end-of-line has been emitted unconditionally, so
the number of fields equals the number of Normal-state commas plus one, and
in particular is at least one. -/
theorem splitLine_field_count (l : List Char) (fields : List (List Char))
    (h : splitLine l = some fields) :
    fields.length = normalCommas .Normal (trim l) + 1 ∧ 1 ≤ fields.length := by
  simp only [splitLine, Option.bind_eq_some, Option.map_eq_some'] at h
  obtain ⟨st, hloop, last, hlast, rfl⟩ := h
  have := splitLoop_len (trim l) (trim l) 0 ⟨.Normal, 0, []⟩ st hloop
  simp only [List.length_nil, Nat.zero_add] at this
  simp [this]

theorem splitLine_field_count_witness :
    (["x".toList, "y".toList] : List (List Char)).length =
      normalCommas QuoteState.Normal (trim ("x,y".toList)) + 1 ∧
    1 ≤ (["x".toList, "y".toList] : List (List Char)).length :=
  splitLine_field_count ("x,y".toList) ["x".toList, "y".toList] (by decide)

/-- Claim C10: the legacy copies in main.rs are extensionally equal to the
canonical ones: `parse_cols` agrees with `parse_arg_cols` on every spec and
offset (same results, same failures), and `_split_line` agrees with
`split_line` on every line. -/
theorem main_duplicates_extensionally_equal :
    (∀ c o, parse_cols c o = parse_arg_cols c o) ∧
    (∀ l, _split_line l = splitLine l) := by
  constructor
  · intro c o
    simp [parse_cols, parse_arg_cols, mainParseLoop_eq]
  · intro l
    simp [_split_line, splitLine, mainSplitLoop_eq]

end Ccut
